import Mathlib

/-!
# Verification of the pyqt-node-editor core logic

Shallow embedding of the node-editor's graph model and interaction logic,
translated from the Python sources under `nodeeditor/` and
`examples/example_calculator/`.  Machine-level Qt rendering and geometry
primitives (rectangle hit-testing, path intersection) are modelled as
explicit oracle parameters; everything else follows the Python code
line by line.
-/

namespace NodeEditor

/-! ## Graph model for the cycle validator (node_edge_validators.py)

A socket belongs to a node and has a direction.  `node_socket.py` is not part
of the checked sources; per the spec (section 3, "Socket": direction
(input|output)) a socket's direction is a two-valued enum, so `is_output`
is the negation of `is_input`. -/

/-- A connection point on a node.  Modelled from the spec: a socket carries
its owning node reference and a direction (input | output). -/
structure SocketV where
  node : Nat
  is_input : Bool
deriving DecidableEq, Repr

/-- `is_output` is the complementary direction of `is_input`. -/
def SocketV.is_output (s : SocketV) : Bool := !s.is_input

/-- The edge set of a scene at node granularity.  An entry `(u, v)` records an
existing edge leaving one of node `u`'s output sockets and ending at an input
socket of node `v` (the DFS in `edge_cannot_create_loop` walks exactly these
hops: `start_node.outputs` -> `output_sock.edges` -> `edge.end_socket.node`). -/
abbrev EdgeSet := List (Nat × Nat)

/-- Successor nodes reachable from `n` over one edge hanging off `n`'s output
sockets (the inner two loops of `has_path_to_node`). -/
def nodeSuccessors (g : EdgeSet) (n : Nat) : List Nat :=
  (g.filter (fun e => e.1 = n)).map (fun e => e.2)

mutual

/-- The recursive body of `has_path_to_node` in `node_edge_validators.py`:
depth-first search from `start` towards `target`, threading the mutable
`visited` set through the recursion exactly as Python shares it between
sibling calls.  The `fuel` argument bounds the recursion depth; Python needs
no such bound because each nesting level inserts a fresh node object into
`visited` and the object graph is finite.  Callers pass fuel exceeding the
number of nodes, which this file proves sufficient. -/
def hasPathDfs (g : EdgeSet) (target : Nat) :
    Nat → Nat → List Nat → Bool × List Nat
  | 0, _, visited => (false, visited)
  | fuel + 1, start, visited =>
    if start = target then (true, visited)
    else if start ∈ visited then (false, visited)
    else hasPathDfsList g target fuel (nodeSuccessors g start) (start :: visited)
termination_by fuel _ _ => (fuel, 0)

/-- The `for output_sock ... for edge ...` loop of `has_path_to_node`: try the
successors in order, short-circuiting on the first `True`, carrying over the
grown `visited` set after each failing sibling call. -/
def hasPathDfsList (g : EdgeSet) (target : Nat) :
    Nat → List Nat → List Nat → Bool × List Nat
  | _, [], visited => (false, visited)
  | fuel, n :: ns, visited =>
    match hasPathDfs g target fuel n visited with
    | (true, v) => (true, v)
    | (false, v) => hasPathDfsList g target fuel ns v
termination_by fuel ns _ => (fuel, ns.length + 1)

end

/-- All node ids mentioned by the edge set. -/
def graphNodes (g : EdgeSet) : List Nat :=
  g.map Prod.fst ++ g.map Prod.snd

/-- `has_path_to_node(start_node, target_node, set())` from
`node_edge_validators.py`: does DFS from `start` reach `target`?  The fuel
`(start :: graphNodes g).length + 1` strictly exceeds the number of distinct
reachable nodes, so it never runs out (proved below). -/
def has_path_to_node (g : EdgeSet) (start target : Nat) : Bool :=
  (hasPathDfs g target ((start :: graphNodes g).length + 1) start []).1

/-- `edge_cannot_create_loop(input, output)` from `node_edge_validators.py`.
Orients the pair, then rejects (returns `false`) exactly when the DFS already
finds a path from the input socket's node to the output socket's node. -/
def edge_cannot_create_loop (g : EdgeSet) (input output : SocketV) : Bool :=
  if input.is_input && output.is_output then
    if has_path_to_node g input.node output.node then false else true
  else if input.is_output && output.is_input then
    if has_path_to_node g output.node input.node then false else true
  else
    true

/-- One step of the edge relation recorded in the scene. -/
def EdgeStep (g : EdgeSet) (a b : Nat) : Prop := (a, b) ∈ g

/-- There is a (possibly empty) directed path from `a` to `b` following
existing output-to-input edges. -/
def Reaches (g : EdgeSet) (a b : Nat) : Prop :=
  Relation.ReflTransGen (EdgeStep g) a b

/-- The node of the prospective downstream endpoint: the input socket's node. -/
def downstreamNode (input output : SocketV) : Nat :=
  if input.is_input then input.node else output.node

/-- The node of the prospective upstream endpoint: the output socket's node. -/
def upstreamNode (input output : SocketV) : Nat :=
  if input.is_input then output.node else input.node

/-- The graph contains no directed cycle. -/
def Acyclic (g : EdgeSet) : Prop :=
  ∀ n, ¬ Relation.TransGen (EdgeStep g) n n

/-- An edge-creation attempt guarded by `edge_cannot_create_loop`: when the
validator accepts, the new edge (upstream node -> downstream node) is added
to the scene's edge set; otherwise the creation is rejected and the set is
unchanged. -/
def applyGuardedCreate (g : EdgeSet) (attempt : SocketV × SocketV) : EdgeSet :=
  if edge_cannot_create_loop g attempt.1 attempt.2 then
    (upstreamNode attempt.1 attempt.2, downstreamNode attempt.1 attempt.2) :: g
  else
    g

/-- Number of universe nodes not yet visited — the termination measure
showing the DFS fuel never runs out. -/
def unvisitedCount (U visited : List Nat) : Nat :=
  (U.toFinset \ visited.toFinset).card

/-- Invariant of a failed DFS run: every node the run added to `visited` is
not the target and has all of its successors inside the final visited set. -/
def DfsClosed (g : EdgeSet) (target : Nat) (visited v' : List Nat) : Prop :=
  ∀ x ∈ v', x ∉ visited → x ≠ target ∧ ∀ y, (x, y) ∈ g → y ∈ v'

/-! ## Edge snapping (node_edge_snapping.py)

`getSnappedToSocketPosition` works on the list of `QDMGraphicsSocket` items
returned by `grScene.items(scanrect)` for the square of side
`2 * edge_snapping_radius` centred on the pointer.  Qt's scene query is a
presentation-layer collaborator; here the candidate list is the function's
input.  Coordinates are exact numbers (`Int`); the algorithm only compares
sums of squares, which is representation independent. -/

/-- A graphics-socket candidate together with the socket's anchor point
`getSocketScenePosition`. -/
structure GrSocketV where
  id : Nat
  anchor : Int × Int
deriving DecidableEq, Repr

/-- `qpdist = grsock_scenepos - scenepos; dist = x*x + y*y`. -/
def sqDist (p q : Int × Int) : Int :=
  (p.1 - q.1) * (p.1 - q.1) + (p.2 - q.2) * (p.2 - q.2)

/-- The `for grsock in items` loop of `getSnappedToSocketPosition`, carrying
the running `nearest` distance and `selected_item`.  The update fires only on
a strictly smaller distance, so ties keep the earlier candidate. -/
def snapSelectLoop (scenepos : Int × Int) :
    List GrSocketV → Int → GrSocketV → GrSocketV
  | [], _, selected => selected
  | s :: rest, nearest, selected =>
    if sqDist s.anchor scenepos < nearest then
      snapSelectLoop scenepos rest (sqDist s.anchor scenepos) s
    else
      snapSelectLoop scenepos rest nearest selected

/-- `getSnappedToSocketPosition(scenepos)` over the filtered candidate list:
returns `(None, scenepos)` when no socket item was found, otherwise selects
`items[0]`, runs the nearest-socket loop when there is more than one
candidate (initial `nearest = 10000000000`), highlights the selected item and
returns it with its exact anchor position.  The returned socket is also the
one whose `isHighlighted` gets set. -/
def getSnappedToSocketPosition (items : List GrSocketV) (scenepos : Int × Int) :
    Option GrSocketV × (Int × Int) :=
  match items with
  | [] => (none, scenepos)
  | first :: rest =>
    let selected :=
      if rest.length + 1 > 1 then
        snapSelectLoop scenepos (first :: rest) 10000000000 first
      else
        first
    (some selected, selected.anchor)

/-! ## Calculator node evaluation (calc_node_base.py)

`CalcNode.eval` caches `(value, calcText)` behind the `dirty`/`invalid`
flags and delegates to the type-specific `evalImplementation`.  The
implementation hook is a parameter here (the spec's "counting stub"):
it receives the node state and either returns an updated state with a
`(value, text)` pair or raises.  `implCalls` instruments how many times the
hook was entered.  `markInvalid`/`markDirty` (from the absent
`node_node.py`) are modelled from the spec: they set the respective flag;
`markDescendantsDirty` touches only other nodes and has no effect on the
node-local state modelled here. -/

/-- Node-local evaluation state of a `CalcNode`. -/
structure CalcNodeState where
  value : Option Int
  calcText : String
  dirty : Bool
  invalid : Bool
  tooltip : String
  implCalls : Nat
deriving DecidableEq, Repr

/-- An exception escaping `evalImplementation`: Python distinguishes
`ValueError` from any other `Exception` in `CalcNode.eval`. -/
inductive EvalExc where
  | valueError (msg : String)
  | otherError (msg : String)
deriving DecidableEq, Repr

/-- The text `str(e)` of the exception. -/
def EvalExc.msg : EvalExc → String
  | .valueError m => m
  | .otherError m => m

/-- Outcome of running `evalImplementation` on a node state: a normal return
with the updated state and the `(value, text)` pair, or an exception raised
part-way through, carrying the state as mutated up to the raise. -/
inductive ImplResult where
  | ok (s : CalcNodeState) (val : Option Int) (txt : String)
  | raised (exc : EvalExc) (s : CalcNodeState)

/-- Increment the instrumentation counter when `evalImplementation` is
entered. -/
def bumpImpl (s : CalcNodeState) : CalcNodeState :=
  { s with implCalls := s.implCalls + 1 }

/-- `CalcNode.eval` from `calc_node_base.py`:

    val = 0; txt = ""
    try:
        if not dirty and not invalid: val, txt = cached
        else: val, txt = evalImplementation()
    except ValueError as e: markInvalid(); tooltip = str(e); markDescendantsDirty()
    except Exception as e: markInvalid(); tooltip = str(e); dumpException(e)
    return val, txt

On an exception the local variables keep their initial values `0` and `""`,
so the function returns `(0, "")`; the cached `value`/`calcText` fields are
not touched by the handlers. -/
def calcEval (impl : CalcNodeState → ImplResult) (s : CalcNodeState) :
    CalcNodeState × Option Int × String :=
  if !s.dirty && !s.invalid then
    (s, s.value, s.calcText)
  else
    match impl (bumpImpl s) with
    | .ok s' v t => (s', v, t)
    | .raised (.valueError m) s' =>
      ({ s' with invalid := true, tooltip := m }, some 0, "")
    | .raised (.otherError m) s' =>
      ({ s' with invalid := true, tooltip := m }, some 0, "")

/-! ## Output-evaluated listeners (calc_node_base.py, nodes/output.py)

`CalcScene.OnOutputEvaluated(output_node)` invokes every registered
listener with its argument.  `CalcNode.clearOutputNode` walks the children
(`getChildrenNodes`, modelled from the spec as the nodes connected through
the output sockets' edges) and, for every child that is a `CalcNode_Output`,
resets its display and calls `self.scene.OnOutputEvaluated(self)` — note the
argument is `self`, the node whose chain broke, before recursing into the
child. -/

/-- `CalcScene.OnOutputEvaluated`: call every registered listener callback
with `output_node`, in registration order. -/
def OnOutputEvaluated {α : Type} (listeners : List (Nat → α)) (output_node : Nat) :
    List α :=
  listeners.map (fun callback => callback output_node)

/-- The sequence of arguments passed to `scene.OnOutputEvaluated` during
`clearOutputNode(self)`, given the children relation and the
is-`CalcNode_Output` class test.  `fuel` bounds the recursion depth; Python
relies on the validator-enforced acyclicity of the graph. -/
def clearOutputNodeEvents (children : Nat → List Nat) (isOut : Nat → Bool) :
    Nat → Nat → List Nat
  | 0, _ => []
  | fuel + 1, self =>
    (children self).flatMap (fun other_node =>
      (if isOut other_node then [self] else []) ++
        clearOutputNodeEvents children isOut fuel other_node)

/-! ## Node dropped on an edge (node_edge_intersect.py)

Scene edges keep their socket endpoints; `is_output` of an endpoint comes
from the socket.  The geometric test "this edge's graphics item is inside
the dropped node's bounding box" is Qt's `grScene.items(node_box)`, a
presentation collaborator, modelled as the oracle `intersects`.  The item
iteration order is the scene's edge order.  `getInput`/`getOutputs` live in
the absent `node_node.py`; modelled from the spec (4.5: the drop "is
rejected silently if the node has any existing connection"): they report
edges connected to the node's input respectively output sockets. -/

/-- An edge endpoint: socket id plus its direction. -/
structure SocketRef where
  id : Nat
  is_output : Bool
deriving DecidableEq, Repr

/-- A scene edge record: endpoints (possibly dangling during a drag) and the
visual `edge_type` tag. -/
structure EdgeRec where
  id : Nat
  start_socket : Option SocketRef
  end_socket : Option SocketRef
  edge_type : Nat
deriving DecidableEq, Repr

/-- A node as seen by `EdgeIntersect`: ordered socket-id lists. -/
structure NodeRec where
  inputs : List Nat
  outputs : List Nat
deriving DecidableEq, Repr

/-- Scene state touched by `dropNode`: the edge set and the history log. -/
structure SceneRec where
  edges : List EdgeRec
  history : List String
deriving DecidableEq, Repr

/-- Does the edge touch one of the node's sockets
(`draggedNode.hasConnectedEdge(edge)`)? -/
def hasConnectedEdge (node : NodeRec) (e : EdgeRec) : Bool :=
  ([e.start_socket, e.end_socket].filterMap id).any
    (fun s => s.id ∈ node.inputs || s.id ∈ node.outputs)

/-- `EdgeIntersect.intersect(node_box)`: the first edge item inside the box
that is not connected to the dragged node, in scene order. -/
def intersectBox (node : NodeRec) (intersects : EdgeRec → Bool)
    (scene : SceneRec) : Option EdgeRec :=
  scene.edges.find? (fun e => intersects e && !hasConnectedEdge node e)

/-- Modelled from the spec: `node.getInput()` — the edge connected through
one of the node's input sockets, if any. -/
def getInput (scene : SceneRec) (node : NodeRec) : Option EdgeRec :=
  scene.edges.find? (fun e =>
    ([e.start_socket, e.end_socket].filterMap id).any
      (fun s => s.id ∈ node.inputs))

/-- Modelled from the spec: `node.getOutputs()` — the edges connected
through the node's output sockets. -/
def getOutputs (scene : SceneRec) (node : NodeRec) : List EdgeRec :=
  scene.edges.filter (fun e =>
    ([e.start_socket, e.end_socket].filterMap id).any
      (fun s => s.id ∈ node.outputs))

/-- `EdgeIntersect.isConnected(node)`: nodes with only inputs or only
outputs are excluded (`True`), else report whether any edge is connected. -/
def isConnected (scene : SceneRec) (node : NodeRec) : Bool :=
  if node.inputs = [] || node.outputs = [] then
    true
  else
    (getInput scene node).isSome || !(getOutputs scene node).isEmpty

/-- `EdgeIntersect.dropNode(node, ...)`.  Fresh edge ids for the two created
edges are supplied by the caller (Python's `Edge` constructor draws them
from a global counter).  Python's list indexing `node.inputs[0]` /
`node.outputs[0]` is embedded as `head?`; `none` marks the `IndexError`
crash that would escape `dropNode`. -/
def dropNode (intersects : EdgeRec → Bool) (id1 id2 : Nat)
    (scene : SceneRec) (node : NodeRec) : Option SceneRec :=
  match intersectBox node intersects scene with
  | none => some scene
  | some edge =>
    if isConnected scene node then
      some scene
    else
      match edge.start_socket, edge.end_socket with
      | some ss, some es =>
        let socket_start := if ss.is_output then ss else es
        let socket_end := if ss.is_output then es else ss
        let edge_type := edge.edge_type
        let afterRemove : SceneRec :=
          { edges := scene.edges.filter (fun e => e.id ≠ edge.id),
            history := scene.history ++ ["Delete existing edge"] }
        match node.inputs.head? with
        | none => none
        | some new_node_socket_in =>
          let afterFirst : SceneRec :=
            { afterRemove with
                edges := afterRemove.edges ++
                  [⟨id1, some socket_start, some ⟨new_node_socket_in, false⟩,
                    edge_type⟩] }
          match node.outputs.head? with
          | none => none
          | some new_node_socket_out =>
            some { edges := afterFirst.edges ++
                     [⟨id2, some ⟨new_node_socket_out, true⟩, some socket_end,
                       edge_type⟩],
                   history := afterFirst.history ++
                     ["Created new edges by dropping node"] }
      | _, _ => some scene

/-! ## Cutline (node_graphics_view.py)

`cutIntersectingEdges` walks consecutive point pairs of the accumulated
cut polyline and removes every scene edge whose graphics path intersects the
segment (`edge.grEdge.intersectsWith(p1, p2)` is Qt path geometry, an oracle
here), then stores a single history entry.  The `EDGE_CUT` branch of
`leftMouseButtonRelease` then clears the polyline and returns to `NOOP`. -/

/-- The interaction state machine modes of `QDMGraphicsView`. -/
inductive ViewMode where
  | noop
  | edgeDrag
  | edgeCut
  | edgesRerouting
  | nodeDrag
deriving DecidableEq, Repr

/-- The slice of `QDMGraphicsView` state that the cut gesture touches. -/
structure ViewState where
  mode : ViewMode
  line_points : List (Int × Int)
  scene : SceneRec
deriving DecidableEq, Repr

/-- The consecutive point pairs `(line_points[ix], line_points[ix+1])`. -/
def cutSegments (ps : List (Int × Int)) : List ((Int × Int) × (Int × Int)) :=
  ps.zip ps.tail

/-- `QDMGraphicsView.cutIntersectingEdges`: for each polyline segment remove
(from a copy-snapshot iteration, so net effect is a filter) every edge
intersecting it, then store one history entry for the whole batch. -/
def cutIntersectingEdges (inter : EdgeRec → (Int × Int) → (Int × Int) → Bool)
    (points : List (Int × Int)) (scene : SceneRec) : SceneRec :=
  { edges :=
      (cutSegments points).foldl
        (fun es seg => es.filter (fun e => !inter e seg.1 seg.2)) scene.edges,
    history := scene.history ++ ["Delete cutted edges"] }

/-- The `mode == EDGE_CUT` branch of `leftMouseButtonRelease`: cut the
intersecting edges, discard the polyline, go back to `NOOP`. -/
def releaseEdgeCut (inter : EdgeRec → (Int × Int) → (Int × Int) → Bool)
    (v : ViewState) : ViewState :=
  if v.mode = ViewMode.edgeCut then
    { mode := ViewMode.noop,
      line_points := [],
      scene := cutIntersectingEdges inter v.line_points v.scene }
  else
    v

/-! ## File loading (node_editor_widget.py)

`NodeEditorWidget.fileLoad` delegates to `Scene.loadFromFile`, which is in
the absent `node_scene.py`.  Modelled from the spec (section 7): loading a
missing file raises `FileNotFoundError`, a malformed file raises
`InvalidFile`, and on failure the in-memory scene is left unmodified
(all-or-nothing); on success the scene is replaced by the document's
content.  The file system is an oracle from names to file contents. -/

/-- What the file system holds under a name. -/
inductive FileData where
  | missing (errmsg : String)
  | malformed (errmsg : String)
  | valid (doc : Nat)
deriving DecidableEq, Repr

/-- Outcome of `Scene.loadFromFile`. -/
inductive LoadResult where
  | ok (doc : Nat)
  | fileNotFound (errmsg : String)
  | invalidFile (errmsg : String)
deriving DecidableEq, Repr

/-- Modelled from the spec: `Scene.loadFromFile(filename)` (absent
`node_scene.py`) either returns the deserialized document or raises
`FileNotFoundError` / `InvalidFile` without touching the scene. -/
def loadFromFile (fs : String → FileData) (filename : String) : LoadResult :=
  match fs filename with
  | .missing m => .fileNotFound m
  | .malformed m => .invalidFile m
  | .valid doc => .ok doc

/-- The state of a `NodeEditorWidget`: the scene content (abstract document),
the remembered filename and the history log. -/
structure WidgetState where
  sceneDoc : Nat
  filename : Option String
  history : List String
deriving DecidableEq, Repr

/-- A `QMessageBox.warning` surfaced to the user. -/
structure WarningBox where
  title : String
  text : String
deriving DecidableEq, Repr

/-- `os.path.basename`. -/
def basename (f : String) : String :=
  (f.splitOn "/").getLastD f

/-- `NodeEditorWidget.fileLoad(filename)`: on success replace the scene,
remember the filename, reset history to the initial stamp and return `True`;
on `FileNotFoundError` or `InvalidFile` show a warning naming the file with
the reason and return `False`, leaving the widget state unmodified. -/
def fileLoad (fs : String → FileData) (w : WidgetState) (filename : String) :
    WidgetState × Bool × List WarningBox :=
  match loadFromFile fs filename with
  | .ok doc =>
    ({ sceneDoc := doc, filename := some filename,
       history := ["initial history stamp"] }, true, [])
  | .fileNotFound m =>
    (w, false,
      [⟨"Error loading " ++ basename filename, (m.replace "[Errno 2]" "")⟩])
  | .invalidFile m =>
    (w, false, [⟨"Error loading " ++ basename filename, m⟩])

/-! ## Theorems -/

/-- C9: when no graphics-socket item lies within the scan square, the
function returns `(None, scenepos)`: no socket is selected (and hence none
gets highlighted) and the raw pointer position is passed through. -/
theorem snap_empty_passthrough (scenepos : Int × Int) :
    getSnappedToSocketPosition [] scenepos = (none, scenepos) := rfl

/-- C6: `eval()` on a node that is neither dirty nor invalid returns the
cached `(value, calcText)` pair, leaves the node state untouched and never
enters `evalImplementation` (the instrumentation counter is unchanged). -/
theorem calcEval_cached (impl : CalcNodeState → ImplResult) (s : CalcNodeState)
    (hd : s.dirty = false) (hi : s.invalid = false) :
    calcEval impl s = (s, s.value, s.calcText) ∧
      (calcEval impl s).1.implCalls = s.implCalls := by
  constructor <;> simp [calcEval, hd, hi]

/-- Witness for `calcEval_cached` on a concrete clean node. -/
theorem calcEval_cached_witness :
    calcEval (fun s => ImplResult.raised (EvalExc.otherError "unused") s)
        ⟨some 9, "9", false, false, "", 3⟩ =
      (⟨some 9, "9", false, false, "", 3⟩, some 9, "9") ∧
      (calcEval (fun s => ImplResult.raised (EvalExc.otherError "unused") s)
        ⟨some 9, "9", false, false, "", 3⟩).1.implCalls = 3 :=
  calcEval_cached _ _ rfl rfl

/-- C2 counterexample: `eval()` catches the exception, marks the node
invalid and records the text, but returns the handler-initialised pair
`(0, "")`, not `None`: at this concrete input the returned value is `0`. -/
theorem calcEval_exception_value_is_zero_not_none :
    (calcEval (fun s => ImplResult.raised (EvalExc.valueError "boom") s)
        ⟨some 5, "5", true, false, "", 0⟩).2.1 = some 0 ∧
      (calcEval (fun s => ImplResult.raised (EvalExc.valueError "boom") s)
        ⟨some 5, "5", true, false, "", 0⟩).2.1 ≠ none ∧
      (calcEval (fun s => ImplResult.raised (EvalExc.valueError "boom") s)
        ⟨some 5, "5", true, false, "", 0⟩).1.invalid = true := by
  refine ⟨rfl, by simp [calcEval, bumpImpl], rfl⟩

/-- C2 (amended): if `evalImplementation()` raises any exception during
`eval()` — `ValueError` or any other — the exception is not propagated: the
node is marked invalid, the exception text becomes the tooltip, and `eval()`
returns the value `0` with empty text (its initialised local defaults),
regardless of the exception kind. -/
theorem calcEval_exception (impl : CalcNodeState → ImplResult)
    (s s' : CalcNodeState) (e : EvalExc)
    (hdirty : s.dirty = true ∨ s.invalid = true)
    (hraise : impl (bumpImpl s) = ImplResult.raised e s') :
    calcEval impl s = ({ s' with invalid := true, tooltip := e.msg },
      some 0, "") := by
  have hcond : (!s.dirty && !s.invalid) = false := by
    rcases hdirty with h | h <;> simp [h]
  cases e <;> simp [calcEval, hcond, hraise, EvalExc.msg]

/-- Witness for `calcEval_exception` on a concrete dirty node with a raising
implementation. -/
theorem calcEval_exception_witness :
    calcEval (fun s => ImplResult.raised (EvalExc.otherError "crash") s)
        ⟨some 7, "7", true, false, "", 0⟩ =
      (⟨some 7, "7", true, true, "crash", 1⟩, some 0, "") := by
  have h := calcEval_exception
    (fun s => ImplResult.raised (EvalExc.otherError "crash") s)
    ⟨some 7, "7", true, false, "", 0⟩
    (bumpImpl ⟨some 7, "7", true, false, "", 0⟩)
    (EvalExc.otherError "crash") (Or.inl rfl) rfl
  simpa [bumpImpl, EvalExc.msg] using h

/-- C8: `fileLoad` returns `True` and records the filename exactly when
`loadFromFile` succeeds; a missing file and a malformed file are caught as
two distinct conditions, each surfaced as one warning naming the file's base
name with a reason string; in both failure cases it returns `False` with the
widget state (scene, filename, history) unmodified. -/
theorem fileLoad_spec (fs : String → FileData) (w : WidgetState) (f : String) :
    ((fileLoad fs w f).2.1 = true ↔ ∃ d, fs f = FileData.valid d) ∧
    (∀ d, fs f = FileData.valid d →
      fileLoad fs w f =
        (⟨d, some f, ["initial history stamp"]⟩, true, [])) ∧
    (∀ m, fs f = FileData.missing m →
      fileLoad fs w f = (w, false,
        [⟨"Error loading " ++ basename f, m.replace "[Errno 2]" ""⟩])) ∧
    (∀ m, fs f = FileData.malformed m →
      fileLoad fs w f = (w, false, [⟨"Error loading " ++ basename f, m⟩])) := by
  cases h : fs f <;>
    simp [fileLoad, loadFromFile, h]

/-- Witness for `fileLoad_spec`: a concrete missing file is reported as a
not-found warning naming the base name, with the widget state unchanged. -/
theorem fileLoad_spec_witness :
    fileLoad (fun _ => FileData.missing "[Errno 2] No such file: 'g.json'")
        ⟨7, none, ["old"]⟩ "dir/g.json" =
      (⟨7, none, ["old"]⟩, false,
        [⟨"Error loading " ++ basename "dir/g.json",
          String.replace "[Errno 2] No such file: 'g.json'" "[Errno 2]" ""⟩]) :=
  (fileLoad_spec _ _ _).2.2.1 _ rfl

/-- C3 (code bug): in `clearOutputNode`, the call
`self.scene.OnOutputEvaluated(self)` passes `self` — the upstream node whose
chain broke — not the output node `other_node` that was reset.  In the
concrete two-node chain `0 -> 1` where node `1` is the only
`CalcNode_Output`, the listener dispatch receives node `0`, which is not an
output node. -/
theorem clearOutputNode_listener_gets_upstream :
    clearOutputNodeEvents (fun n => if n == 0 then [1] else [])
        (fun n => n == 1) 2 0 = [0] ∧
      (fun n : Nat => n == 1) 0 = false ∧
      OnOutputEvaluated [fun n => n] 0 = [0] := by
  refine ⟨rfl, rfl, rfl⟩

/-- Membership in a list repeatedly filtered by each element of another
list: the survivors are exactly the original members passing every filter. -/
theorem mem_foldl_filter {α σ : Type} (p : α → σ → Bool) (segs : List σ) :
    ∀ (es : List α) (e : α),
      (e ∈ segs.foldl (fun acc s => acc.filter (fun x => p x s)) es) ↔
        (e ∈ es ∧ ∀ s ∈ segs, p e s = true) := by
  induction segs with
  | nil => simp
  | cons s ss ih =>
    intro es e
    rw [List.foldl_cons, ih, List.mem_filter]
    constructor
    · rintro ⟨⟨he, hs⟩, hss⟩
      refine ⟨he, fun s' hmem' => ?_⟩
      rcases List.mem_cons.mp hmem' with rfl | hmem'
      exacts [hs, hss s' hmem']
    · rintro ⟨he, hall⟩
      exact ⟨⟨he, hall s (by simp)⟩, fun s' hmem => hall s' (by simp [hmem])⟩

/-- C7: on pointer-up in the edge-cutting state, exactly the edges whose
path intersects some segment of the accumulated polyline are removed, one
history entry is stored for the whole batch, the polyline is cleared and the
state machine returns to `NOOP`. -/
theorem releaseEdgeCut_spec (inter : EdgeRec → (Int × Int) → (Int × Int) → Bool)
    (v : ViewState) (h : v.mode = ViewMode.edgeCut) :
    (∀ e, e ∈ (releaseEdgeCut inter v).scene.edges ↔
      (e ∈ v.scene.edges ∧
        ∀ seg ∈ cutSegments v.line_points, inter e seg.1 seg.2 = false)) ∧
    (releaseEdgeCut inter v).scene.history =
      v.scene.history ++ ["Delete cutted edges"] ∧
    (releaseEdgeCut inter v).line_points = [] ∧
    (releaseEdgeCut inter v).mode = ViewMode.noop := by
  refine ⟨fun e => ?_, by simp [releaseEdgeCut, h, cutIntersectingEdges],
    by simp [releaseEdgeCut, h], by simp [releaseEdgeCut, h]⟩
  simp only [releaseEdgeCut, h, if_pos, cutIntersectingEdges]
  rw [mem_foldl_filter (fun e seg => !inter e seg.1 seg.2) (cutSegments v.line_points)]
  simp

/-- Witness for `releaseEdgeCut_spec` on a concrete cutting gesture. -/
theorem releaseEdgeCut_spec_witness :
    (releaseEdgeCut (fun e _ _ => e.id == 1)
      ⟨ViewMode.edgeCut, [(0, 0), (2, 2)], ⟨[], ["h"]⟩⟩).scene.history =
        ["h", "Delete cutted edges"] ∧
    (releaseEdgeCut (fun e _ _ => e.id == 1)
      ⟨ViewMode.edgeCut, [(0, 0), (2, 2)], ⟨[], ["h"]⟩⟩).line_points = [] ∧
    (releaseEdgeCut (fun e _ _ => e.id == 1)
      ⟨ViewMode.edgeCut, [(0, 0), (2, 2)], ⟨[], ["h"]⟩⟩).mode = ViewMode.noop := by
  have h := releaseEdgeCut_spec (fun e _ _ => e.id == 1)
    ⟨ViewMode.edgeCut, [(0, 0), (2, 2)], ⟨[], ["h"]⟩⟩ rfl
  exact ⟨by simpa using h.2.1, h.2.2.1, h.2.2.2⟩

/-- Correctness of the nearest-socket loop: either no candidate beats the
incoming `nearest` bound and the incoming selection is kept, or the result
is the earliest candidate attaining the minimum squared distance: strictly
closer than everything before it, at least as close as everything after. -/
theorem snapSelectLoop_spec (scenepos : Int × Int) :
    ∀ (l : List GrSocketV) (nearest : Int) (sel : GrSocketV),
      ∃ m, snapSelectLoop scenepos l nearest sel = m ∧
        ((m = sel ∧ ∀ x ∈ l, nearest ≤ sqDist x.anchor scenepos) ∨
         (sqDist m.anchor scenepos < nearest ∧
          ∃ l1 l2, l = l1 ++ m :: l2 ∧
            (∀ x ∈ l1, sqDist m.anchor scenepos < sqDist x.anchor scenepos) ∧
            (∀ x ∈ l2, sqDist m.anchor scenepos ≤ sqDist x.anchor scenepos))) := by
  intro l
  induction l with
  | nil =>
    intro nearest sel
    exact ⟨sel, rfl, Or.inl ⟨rfl, by simp⟩⟩
  | cons y ys ih =>
    intro nearest sel
    by_cases hy : sqDist y.anchor scenepos < nearest
    · obtain ⟨m, hm, hcase⟩ := ih (sqDist y.anchor scenepos) y
      refine ⟨m, by simp [snapSelectLoop, hy, hm], Or.inr ?_⟩
      rcases hcase with ⟨rfl, hall⟩ | ⟨hlt, l1, l2, hdec, h1, h2⟩
      · exact ⟨hy, [], ys, by simp, by simp, hall⟩
      · refine ⟨lt_trans hlt hy, y :: l1, l2, by simp [hdec], ?_, h2⟩
        intro x hx
        rcases List.mem_cons.mp hx with rfl | hx
        · exact hlt
        · exact h1 x hx
    · obtain ⟨m, hm, hcase⟩ := ih nearest sel
      refine ⟨m, by simp [snapSelectLoop, hy, hm], ?_⟩
      rcases hcase with ⟨rfl, hall⟩ | ⟨hlt, l1, l2, hdec, h1, h2⟩
      · refine Or.inl ⟨rfl, ?_⟩
        intro x hx
        rcases List.mem_cons.mp hx with rfl | hx
        · exact le_of_not_lt hy
        · exact hall x hx
      · refine Or.inr ⟨hlt, y :: l1, l2, by simp [hdec], ?_, h2⟩
        intro x hx
        rcases List.mem_cons.mp hx with rfl | hx
        · exact lt_of_lt_of_le hlt (le_of_not_lt hy)
        · exact h1 x hx

/-- C5: for a non-empty candidate list (every candidate found in the scan
square is far closer than the loop's `10000000000` initial bound — within a
24-unit radius the squared distance is at most a few thousand), the function
selects the earliest candidate of minimum squared anchor distance and
returns its exact anchor position; in particular with two candidates at
distances 12 and 5 the distance-5 socket is selected. -/
theorem snap_selects_nearest (items : List GrSocketV) (scenepos : Int × Int)
    (hne : items ≠ [])
    (hsmall : ∀ c ∈ items, sqDist c.anchor scenepos < 10000000000) :
    (∃ m l1 l2,
      getSnappedToSocketPosition items scenepos = (some m, m.anchor) ∧
      items = l1 ++ m :: l2 ∧
      (∀ x ∈ l1, sqDist m.anchor scenepos < sqDist x.anchor scenepos) ∧
      (∀ x ∈ l2, sqDist m.anchor scenepos ≤ sqDist x.anchor scenepos)) ∧
    getSnappedToSocketPosition [⟨1, (12, 0)⟩, ⟨2, (3, 4)⟩] (0, 0) =
      (some ⟨2, (3, 4)⟩, (3, 4)) := by
  constructor
  · match items, hne with
    | first :: rest, _ =>
      cases rest with
      | nil =>
        exact ⟨first, [], [], by simp [getSnappedToSocketPosition], rfl,
          by simp, by simp⟩
      | cons y ys =>
        obtain ⟨m, hm, hcase⟩ :=
          snapSelectLoop_spec scenepos (first :: y :: ys) 10000000000 first
        rcases hcase with ⟨_, hall⟩ | ⟨_, l1, l2, hdec, h1, h2⟩
        · exact absurd (hall first (by simp))
            (not_le.mpr (hsmall first (by simp)))
        · exact ⟨m, l1, l2, by simp [getSnappedToSocketPosition, hm], hdec,
            h1, h2⟩
  · decide

/-- Witness for `snap_selects_nearest`: the concrete two-candidate scene. -/
theorem snap_selects_nearest_witness :
    getSnappedToSocketPosition [⟨1, (12, 0)⟩, ⟨2, (3, 4)⟩] (0, 0) =
      (some ⟨2, (3, 4)⟩, (3, 4)) :=
  (snap_selects_nearest [⟨1, (12, 0)⟩, ⟨2, (3, 4)⟩] (0, 0) (by decide)
    (by decide)).2

/-- C4: dropping an unconnected node onto the first edge found inside its
bounding box (`up` names the edge's output-direction endpoint, `down` its
input-direction endpoint, in either storage orientation) removes that edge
and creates exactly two edges — `up` to the node's first input socket, and
the node's first output socket to `down` — both with the original
`edge_type`, recorded as two history entries; and whenever the dropped node
has any connection (`isConnected`), the scene is left unchanged. -/
theorem dropNode_splits_edge (intersects : EdgeRec → Bool) (id1 id2 : Nat)
    (scene : SceneRec) (node : NodeRec) (edge : EdgeRec) (up down : SocketRef)
    (inS outS : Nat)
    (hfind : intersectBox node intersects scene = some edge)
    (hconn : isConnected scene node = false)
    (hends : (edge.start_socket = some up ∧ edge.end_socket = some down) ∨
      (edge.start_socket = some down ∧ edge.end_socket = some up))
    (hup : up.is_output = true) (hdown : down.is_output = false)
    (hin : node.inputs.head? = some inS)
    (hout : node.outputs.head? = some outS) :
    dropNode intersects id1 id2 scene node = some
      ⟨scene.edges.filter (fun e => e.id ≠ edge.id) ++
        [⟨id1, some up, some ⟨inS, false⟩, edge.edge_type⟩,
         ⟨id2, some ⟨outS, true⟩, some down, edge.edge_type⟩],
       scene.history ++
        ["Delete existing edge", "Created new edges by dropping node"]⟩ ∧
    (∀ (scene' : SceneRec) (node' : NodeRec),
      isConnected scene' node' = true →
        dropNode intersects id1 id2 scene' node' = some scene') := by
  constructor
  · rcases hends with ⟨hs, he⟩ | ⟨hs, he⟩ <;>
      simp [dropNode, hfind, hconn, hs, he, hup, hdown, hin, hout]
  · intro scene' node' hconn'
    cases hfind' : intersectBox node' intersects scene' <;>
      simp [dropNode, hfind', hconn']

/-- Witness for `dropNode_splits_edge` on a concrete one-edge scene and a
free two-socket node. -/
theorem dropNode_splits_edge_witness :
    dropNode (fun _ => true) 7 8
        ⟨[⟨1, some ⟨10, true⟩, some ⟨20, false⟩, 2⟩], ["h0"]⟩
        ⟨[100], [101]⟩ = some
      ⟨(⟨[⟨1, some ⟨10, true⟩, some ⟨20, false⟩, 2⟩],
          ["h0"]⟩ : SceneRec).edges.filter
            (fun e => e.id ≠ (⟨1, some ⟨10, true⟩, some ⟨20, false⟩, 2⟩ :
              EdgeRec).id) ++
        [⟨7, some ⟨10, true⟩, some ⟨100, false⟩, 2⟩,
         ⟨8, some ⟨101, true⟩, some ⟨20, false⟩, 2⟩],
       ["h0"] ++
        ["Delete existing edge", "Created new edges by dropping node"]⟩ :=
  (dropNode_splits_edge (fun _ => true) 7 8
    ⟨[⟨1, some ⟨10, true⟩, some ⟨20, false⟩, 2⟩], ["h0"]⟩
    ⟨[100], [101]⟩ ⟨1, some ⟨10, true⟩, some ⟨20, false⟩, 2⟩
    ⟨10, true⟩ ⟨20, false⟩ 100 101 rfl rfl (Or.inl ⟨rfl, rfl⟩) rfl rfl
    rfl rfl).1

/-- C10: a node with an empty input-socket list or an empty output-socket
list is reported as connected by `isConnected`, so `dropNode` never reaches
its edge-splitting branch for such a node; consequently the indexing
`node.inputs[0]` / `node.outputs[0]` inside `dropNode` never hits an empty
list — `dropNode` always returns a state rather than the `IndexError`
marker. -/
theorem dropNode_indexing_safe (intersects : EdgeRec → Bool) (id1 id2 : Nat)
    (scene : SceneRec) (node : NodeRec) :
    ((node.inputs = [] ∨ node.outputs = []) →
      isConnected scene node = true) ∧
    (dropNode intersects id1 id2 scene node).isSome := by
  constructor
  · intro h
    rcases h with h | h <;> simp [isConnected, h]
  · unfold dropNode
    cases hfind : intersectBox node intersects scene with
    | none => simp
    | some edge =>
      by_cases hconn : isConnected scene node
      · simp [hconn]
      · have hin : node.inputs ≠ [] := by
          intro h
          simp [isConnected, h] at hconn
        have hout : node.outputs ≠ [] := by
          intro h
          simp [isConnected, h] at hconn
        obtain ⟨i, is', hieq⟩ := List.exists_cons_of_ne_nil hin
        obtain ⟨o, os', hoeq⟩ := List.exists_cons_of_ne_nil hout
        rcases hss : edge.start_socket with _ | ss <;>
          rcases hes : edge.end_socket with _ | es <;>
            simp [hconn, hieq, hoeq, hss, hes]

/-- Witness for `dropNode_indexing_safe`: a node with no input sockets is
treated as connected and `dropNode` still returns a state. -/
theorem dropNode_indexing_safe_witness :
    isConnected ⟨[], []⟩ ⟨[], [5]⟩ = true ∧
      (dropNode (fun _ => true) 1 2 ⟨[], []⟩ ⟨[], [5]⟩).isSome :=
  ⟨(dropNode_indexing_safe (fun _ => true) 1 2 ⟨[], []⟩ ⟨[], [5]⟩).1
      (Or.inl rfl),
    (dropNode_indexing_safe (fun _ => true) 1 2 ⟨[], []⟩ ⟨[], [5]⟩).2⟩

/-! ### Correctness of the loop-validator DFS -/

/-- The successors produced by the two inner loops are exactly the edge
targets. -/
theorem nodeSuccessors_mem (g : EdgeSet) (a b : Nat) :
    b ∈ nodeSuccessors g a ↔ (a, b) ∈ g := by
  simp only [nodeSuccessors, List.mem_map, List.mem_filter]
  constructor
  · rintro ⟨⟨x, y⟩, ⟨hmem, hx⟩, hy⟩
    simp only [decide_eq_true_eq] at hx
    subst hx
    subst hy
    exact hmem
  · intro h
    exact ⟨(a, b), ⟨h, by simp⟩, rfl⟩

/-- Soundness of the DFS: a `true` answer really exhibits a path. -/
theorem hasPathDfs_sound (g : EdgeSet) (target : Nat) :
    ∀ fuel : Nat,
      (∀ start visited, (hasPathDfs g target fuel start visited).1 = true →
        Reaches g start target) ∧
      (∀ ns visited, (hasPathDfsList g target fuel ns visited).1 = true →
        ∃ n ∈ ns, Reaches g n target) := by
  intro fuel
  induction fuel with
  | zero =>
    constructor
    · intro start visited h
      simp [hasPathDfs] at h
    · intro ns
      induction ns with
      | nil =>
        intro visited h
        simp [hasPathDfsList] at h
      | cons n ns' ihns =>
        intro visited h
        rw [hasPathDfsList] at h
        simp only [hasPathDfs] at h
        obtain ⟨n', hn', hr⟩ := ihns visited h
        exact ⟨n', by simp [hn'], hr⟩
    | succ fuel ih =>
      have N : ∀ start visited,
          (hasPathDfs g target (fuel + 1) start visited).1 = true →
          Reaches g start target := by
        intro start visited h
        rw [hasPathDfs] at h
        by_cases h1 : start = target
        · subst h1
          exact Relation.ReflTransGen.refl
        · by_cases h2 : start ∈ visited
          · simp [h1, h2] at h
          · simp only [h1, h2, if_false, if_neg, ite_false] at h
            obtain ⟨n, hn, hr⟩ := ih.2 _ _ (by simpa [h1, h2] using h)
            exact Relation.ReflTransGen.head
              ((nodeSuccessors_mem g start n).1 hn) hr
      refine ⟨N, ?_⟩
      intro ns
      induction ns with
      | nil =>
        intro visited h
        simp [hasPathDfsList] at h
      | cons n ns' ihns =>
        intro visited h
        rw [hasPathDfsList] at h
        rcases hres : hasPathDfs g target (fuel + 1) n visited with ⟨b, v⟩
        rw [hres] at h
        cases b with
        | true =>
          exact ⟨n, by simp, N n visited (by rw [hres])⟩
        | false =>
          obtain ⟨n', hn', hr⟩ := ihns v h
          exact ⟨n', by simp [hn'], hr⟩

/-- The DFS only ever grows the threaded visited set. -/
theorem hasPathDfs_visited_mono (g : EdgeSet) (target : Nat) :
    ∀ fuel : Nat,
      (∀ start visited,
        visited ⊆ (hasPathDfs g target fuel start visited).2) ∧
      (∀ ns visited,
        visited ⊆ (hasPathDfsList g target fuel ns visited).2) := by
  intro fuel
  induction fuel with
  | zero =>
    constructor
    · intro start visited
      simp [hasPathDfs]
    · intro ns
      induction ns with
      | nil =>
        intro visited
        simp [hasPathDfsList]
      | cons n ns' ihns =>
        intro visited
        rw [hasPathDfsList]
        simp only [hasPathDfs]
        exact ihns visited
  | succ fuel ih =>
    have N : ∀ start visited,
        visited ⊆ (hasPathDfs g target (fuel + 1) start visited).2 := by
      intro start visited
      rw [hasPathDfs]
      by_cases h1 : start = target
      · simp [h1]
      · by_cases h2 : start ∈ visited
        · simp [h1, h2]
        · simp only [h1, h2, ite_false, if_neg]
          refine List.Subset.trans (List.subset_cons_self start visited) ?_
          simpa [h1, h2] using ih.2 (nodeSuccessors g start) (start :: visited)
    refine ⟨N, ?_⟩
    intro ns
    induction ns with
    | nil =>
      intro visited
      simp [hasPathDfsList]
    | cons n ns' ihns =>
      intro visited
      rw [hasPathDfsList]
      rcases hres : hasPathDfs g target (fuel + 1) n visited with ⟨b, v⟩
      have hsub : visited ⊆ v := by
        have := N n visited
        rw [hres] at this
        exact this
      cases b with
      | true => exact hsub
      | false => exact List.Subset.trans hsub (ihns v)

/-- Growing the visited set can only shrink the unvisited count. -/
theorem unvisitedCount_mono (U : List Nat) {v v' : List Nat} (h : v ⊆ v') :
    unvisitedCount U v' ≤ unvisitedCount U v := by
  apply Finset.card_le_card
  refine Finset.sdiff_subset_sdiff (le_refl _) ?_
  intro x hx
  simpa using h (by simpa using hx)

/-- Visiting a fresh universe node strictly decreases the unvisited count. -/
theorem unvisitedCount_cons {U visited : List Nat} {start : Nat}
    (hU : start ∈ U) (hnv : start ∉ visited) :
    unvisitedCount U (start :: visited) + 1 ≤ unvisitedCount U visited := by
  unfold unvisitedCount
  rw [List.toFinset_cons, Finset.sdiff_insert]
  have hmem : start ∈ U.toFinset \ visited.toFinset := by simp [hU, hnv]
  have hpos : 0 < (U.toFinset \ visited.toFinset).card :=
    Finset.card_pos.mpr ⟨start, hmem⟩
  rw [Finset.card_erase_of_mem hmem]
  omega

/-- Invariant of a failed DFS run, provided every edge target lies in the
universe `U`, the start node lies in `U`, and the fuel dominates the number
of unvisited universe nodes: the start node ends up visited, and the set of
freshly visited nodes is successor-closed and target-free. -/
theorem hasPathDfs_false_inv (g : EdgeSet) (target : Nat) (U : List Nat)
    (hU : ∀ a b, (a, b) ∈ g → b ∈ U) :
    ∀ fuel : Nat,
      (∀ start visited, start ∈ U →
        unvisitedCount U visited + 1 ≤ fuel →
        (hasPathDfs g target fuel start visited).1 = false →
        start ∈ (hasPathDfs g target fuel start visited).2 ∧
          DfsClosed g target visited (hasPathDfs g target fuel start visited).2) ∧
      (∀ ns visited, (∀ n ∈ ns, n ∈ U) →
        unvisitedCount U visited + 1 ≤ fuel →
        (hasPathDfsList g target fuel ns visited).1 = false →
        (∀ n ∈ ns, n ∈ (hasPathDfsList g target fuel ns visited).2) ∧
          DfsClosed g target visited
            (hasPathDfsList g target fuel ns visited).2) := by
  intro fuel
  induction fuel with
  | zero =>
    constructor
    · intro start visited _ hfuel _
      omega
    · intro ns visited _ hfuel _
      omega
  | succ fuel ih =>
    have N : ∀ start visited, start ∈ U →
        unvisitedCount U visited + 1 ≤ fuel + 1 →
        (hasPathDfs g target (fuel + 1) start visited).1 = false →
        start ∈ (hasPathDfs g target (fuel + 1) start visited).2 ∧
          DfsClosed g target visited
            (hasPathDfs g target (fuel + 1) start visited).2 := by
      intro start visited hstartU hfuel hfalse
      rw [hasPathDfs] at hfalse ⊢
      by_cases h1 : start = target
      · simp [h1] at hfalse
      · by_cases h2 : start ∈ visited
        · refine ⟨by simp [h1, h2], ?_⟩
          intro x hx hnx
          simp [h1, h2] at hx
          exact absurd hx hnx
        · simp only [h1, h2, ite_false, if_neg] at hfalse ⊢
          have hsucc : ∀ n ∈ nodeSuccessors g start, n ∈ U := by
            intro n hn
            exact hU start n ((nodeSuccessors_mem g start n).1 hn)
          have hfuel' :
              unvisitedCount U (start :: visited) + 1 ≤ fuel := by
            have hdec := unvisitedCount_cons hstartU h2
            omega
          have hlist := ih.2 (nodeSuccessors g start) (start :: visited)
            hsucc hfuel' (by simpa [h1, h2] using hfalse)
          have hmono := (hasPathDfs_visited_mono g target fuel).2
            (nodeSuccessors g start) (start :: visited)
          constructor
          · exact hmono (by simp)
          · intro x hx hnx
            by_cases hxs : x = start
            · subst hxs
              refine ⟨h1, ?_⟩
              intro y hy
              exact hlist.1 y ((nodeSuccessors_mem g x y).2 hy)
            · have hnx' : x ∉ start :: visited := by
                simp [hxs, hnx]
              exact hlist.2 x hx hnx'
    refine ⟨N, ?_⟩
    intro ns
    induction ns with
    | nil =>
      intro visited _ _ _
      refine ⟨by simp, ?_⟩
      intro x hx hnx
      rw [hasPathDfsList] at hx
      exact absurd hx hnx
    | cons n ns' ihns =>
      intro visited hnsU hfuel hfalse
      rw [hasPathDfsList] at hfalse ⊢
      rcases hres : hasPathDfs g target (fuel + 1) n visited with ⟨b, v⟩
      rw [hres] at hfalse
      cases b with
      | true => exact Bool.noConfusion hfalse
      | false =>
        have hnode := N n visited (hnsU n (by simp)) hfuel (by rw [hres])
        rw [hres] at hnode
        have hvsub : visited ⊆ v := by
          have := (hasPathDfs_visited_mono g target (fuel + 1)).1 n visited
          rw [hres] at this
          exact this
        have hfuel'' : unvisitedCount U v + 1 ≤ fuel + 1 := by
          have := unvisitedCount_mono U hvsub
          omega
        have hrest := ihns v (fun m hm => hnsU m (by simp [hm])) hfuel''
          hfalse
        have hmono' := (hasPathDfs_visited_mono g target (fuel + 1)).2 ns' v
        constructor
        · intro m hm
          rcases List.mem_cons.mp hm with rfl | hm
          · exact hmono' hnode.1
          · exact hrest.1 m hm
        · intro x hx hnx
          by_cases hxv : x ∈ v
          · obtain ⟨hxt, hxsucc⟩ := hnode.2 x hxv hnx
            exact ⟨hxt, fun y hy => hmono' (hxsucc y hy)⟩
          · exact hrest.2 x hx hxv

/-- Full correctness of `has_path_to_node`: the DFS answers `true` exactly
when a directed path over existing output-to-input edges exists. -/
theorem has_path_iff_reaches (g : EdgeSet) (start target : Nat) :
    has_path_to_node g start target = true ↔ Reaches g start target := by
  constructor
  · intro h
    exact (hasPathDfs_sound g target _).1 start [] h
  · intro hr
    by_contra hfalse
    rw [Bool.not_eq_true, has_path_to_node] at hfalse
    have hU : ∀ a b, (a, b) ∈ g → b ∈ start :: graphNodes g := by
      intro a b hab
      refine List.mem_cons_of_mem start ?_
      refine List.mem_append_right _ ?_
      exact List.mem_map.mpr ⟨(a, b), hab, rfl⟩
    have hfuel : unvisitedCount (start :: graphNodes g) [] + 1 ≤
        (start :: graphNodes g).length + 1 := by
      have hb : unvisitedCount (start :: graphNodes g) [] ≤
          (start :: graphNodes g).length := by
        unfold unvisitedCount
        calc ((start :: graphNodes g).toFinset \ ([] : List Nat).toFinset).card
            ≤ (start :: graphNodes g).toFinset.card :=
              Finset.card_le_card (Finset.sdiff_subset)
          _ ≤ (start :: graphNodes g).length := List.toFinset_card_le _
      omega
    obtain ⟨hstart, hclosed⟩ :=
      (hasPathDfs_false_inv g target (start :: graphNodes g) hU
        ((start :: graphNodes g).length + 1)).1 start [] (by simp) hfuel hfalse
    have hall : ∀ b, Reaches g start b →
        b ∈ (hasPathDfs g target ((start :: graphNodes g).length + 1)
          start []).2 := by
      intro b hb
      induction hb with
      | refl => exact hstart
      | tail hab hbc ih =>
        exact (hclosed _ ih (by simp)).2 _ hbc
    exact (hclosed target (hall target hr) (by simp)).1 rfl

/-- The validator rejects exactly when the downstream node already reaches
the upstream node. -/
theorem edge_cannot_create_loop_false_iff (g : EdgeSet)
    (input output : SocketV) (hdir : input.is_input ≠ output.is_input) :
    edge_cannot_create_loop g input output = false ↔
      Reaches g (downstreamNode input output) (upstreamNode input output) := by
  rcases hin : input.is_input <;> rcases hout : output.is_input
  · exact absurd (hin.trans hout.symm) hdir
  · simp only [edge_cannot_create_loop, SocketV.is_output, downstreamNode,
      upstreamNode, hin, hout, Bool.not_true, Bool.not_false, Bool.and_false,
      Bool.and_true, Bool.false_and, Bool.true_and, if_false, ite_false,
      ite_true]
    by_cases hp : has_path_to_node g output.node input.node
    · simpa [hp] using (has_path_iff_reaches g output.node input.node).1 hp
    · simp only [Bool.not_eq_true] at hp
      simp [hp, ← has_path_iff_reaches]
  · simp only [edge_cannot_create_loop, SocketV.is_output, downstreamNode,
      upstreamNode, hin, hout, Bool.not_true, Bool.not_false, Bool.and_false,
      Bool.and_true, Bool.false_and, Bool.true_and, if_false, ite_false,
      ite_true]
    by_cases hp : has_path_to_node g input.node output.node
    · simpa [hp] using (has_path_iff_reaches g input.node output.node).1 hp
    · simp only [Bool.not_eq_true] at hp
      simp [hp, ← has_path_iff_reaches]
  · exact absurd (hin.trans hout.symm) hdir

/-- Decomposing reachability in a graph extended with one edge `(u, v)`,
when `v` does not already reach `u`. -/
theorem reaches_cons_cases (g : EdgeSet) (u v a b : Nat)
    (hnr : ¬ Reaches g v u) (h : Reaches ((u, v) :: g) a b) :
    Reaches g a b ∨ (Reaches g a u ∧ Reaches g v b) := by
  induction h with
  | refl => exact Or.inl Relation.ReflTransGen.refl
  | tail hac hcb ih =>
    rcases List.mem_cons.mp hcb with heq | hmem
    · obtain ⟨hc, hb⟩ := Prod.mk.injEq _ _ _ _ ▸ heq
      subst hc
      subst hb
      rcases ih with hl | ⟨h1, h2⟩
      · exact Or.inr ⟨hl, Relation.ReflTransGen.refl⟩
      · exact absurd h2 hnr
    · rcases ih with hl | ⟨h1, h2⟩
      · exact Or.inl (hl.tail hmem)
      · exact Or.inr ⟨h1, h2.tail hmem⟩

/-- Adding an edge whose destination does not already reach its source
preserves acyclicity. -/
theorem acyclic_cons (g : EdgeSet) (u v : Nat) (hacy : Acyclic g)
    (hnr : ¬ Reaches g v u) : Acyclic ((u, v) :: g) := by
  intro n hcyc
  obtain ⟨m, hstep, hrest⟩ := Relation.TransGen.head'_iff.mp hcyc
  rcases List.mem_cons.mp hstep with heq | hmem
  · obtain ⟨hn, hm⟩ := Prod.mk.injEq _ _ _ _ ▸ heq
    subst hn
    subst hm
    rcases reaches_cons_cases g _ _ _ _ hnr hrest with hl | ⟨h1, _⟩
    · exact hnr hl
    · exact hnr h1
  · rcases reaches_cons_cases g u v _ _ hnr hrest with hl | ⟨h1, h2⟩
    · exact hacy n (Relation.TransGen.head' hmem hl)
    · exact hnr (Relation.ReflTransGen.trans h2
        (Relation.ReflTransGen.head hmem h1))

/-- A single guarded creation attempt (with one input and one output
socket) preserves acyclicity. -/
theorem applyGuardedCreate_acyclic (g : EdgeSet) (attempt : SocketV × SocketV)
    (hdir : attempt.1.is_input ≠ attempt.2.is_input) (hacy : Acyclic g) :
    Acyclic (applyGuardedCreate g attempt) := by
  unfold applyGuardedCreate
  by_cases hval : edge_cannot_create_loop g attempt.1 attempt.2
  · simp only [hval, ite_true, if_pos]
    refine acyclic_cons g _ _ hacy ?_
    intro hreach
    have := (edge_cannot_create_loop_false_iff g attempt.1 attempt.2
      hdir).2 hreach
    rw [this] at hval
    exact Bool.noConfusion hval
  · simp only [Bool.not_eq_true] at hval
    simpa [hval] using hacy

/-- C1: for sockets of opposite directions the validator returns `False`
exactly when a directed path over existing edges already leads from the
prospective downstream node (the input socket's node) back to the
prospective upstream node (the output socket's node); consequently every
sequence of edge creations guarded by this validator keeps the graph
acyclic. -/
theorem edge_cannot_create_loop_spec (g : EdgeSet) (input output : SocketV)
    (hdir : input.is_input ≠ output.is_input) :
    (edge_cannot_create_loop g input output = false ↔
      Reaches g (downstreamNode input output) (upstreamNode input output)) ∧
    (∀ (g0 : EdgeSet) (attempts : List (SocketV × SocketV)),
      Acyclic g0 →
      (∀ a ∈ attempts, a.1.is_input ≠ a.2.is_input) →
      Acyclic (attempts.foldl applyGuardedCreate g0)) := by
  refine ⟨edge_cannot_create_loop_false_iff g input output hdir, ?_⟩
  intro g0 attempts
  induction attempts generalizing g0 with
  | nil =>
    intro hacy _
    simpa using hacy
  | cons a rest ih =>
    intro hacy hall
    rw [List.foldl_cons]
    exact ih (applyGuardedCreate g0 a)
      (applyGuardedCreate_acyclic g0 a (hall a (by simp)) hacy)
      (fun a' ha' => hall a' (by simp [ha']))

/-- Witness for `edge_cannot_create_loop_spec`: in the concrete chain
`1 -> 2 -> 3`, attaching an output socket of node `3` to an input socket of
node `1` is rejected. -/
theorem edge_cannot_create_loop_spec_witness :
    edge_cannot_create_loop [(1, 2), (2, 3)] ⟨1, true⟩ ⟨3, false⟩ = false := by
  have h12 : EdgeStep [(1, 2), (2, 3)] 1 2 := by simp [EdgeStep]
  have h23 : EdgeStep [(1, 2), (2, 3)] 2 3 := by simp [EdgeStep]
  exact (edge_cannot_create_loop_spec [(1, 2), (2, 3)] ⟨1, true⟩ ⟨3, false⟩
    (by decide)).1.mpr
    (Relation.ReflTransGen.tail (Relation.ReflTransGen.single h12) h23)

end NodeEditor
